import Mathlib

/-!
A verification development for the SerialTerm file-transfer protocol engine
(XMODEM family / YMODEM, with ZMODEM autostart detection).

The repository ships only the C headers (`transfer.h`, `serialterm.h`); the
implementation of the transfer engine is described by the design document.
Definitions below are therefore modelled from the spec, shallowly embedding
bytes as `Nat` values < 256, byte buffers as `List Nat`, and the transfer
session as an explicit state record with pure step functions returning the
new state together with the list of emitted events.
-/

namespace SerialTerm

/-! ## Control bytes (spec section 6: byte-level framing constants) -/

def SOH : Nat := 0x01
def STX : Nat := 0x02
def EOT : Nat := 0x04
def ACK : Nat := 0x06
def NAK : Nat := 0x15
def CAN : Nat := 0x18
def CC : Nat := 0x43

/-- The legacy EOF-pad fill byte used to pad short payloads. -/
def PAD : Nat := 0x1A

/-! ## Checksum / CRC codec -/

/-- Modelled from the spec: `checksum8(bytes) -> u8`, sum of bytes mod 256.
The C implementation is not shipped in the repository headers. -/
def checksum8 (bs : List Nat) : Nat :=
  bs.foldl (fun a b => (a + b) % 256) 0

/-- One shift step of the CRC-16/CCITT computation (polynomial 0x1021,
MSB-first, no reflection). -/
def crcShift1 (c : Nat) : Nat :=
  if c.testBit 15 then ((c <<< 1) ^^^ 0x1021) % 65536 else (c <<< 1) % 65536

/-- Eight CRC shift steps: one full byte worth of polynomial division. -/
def crcShift8 (c : Nat) : Nat :=
  crcShift1 (crcShift1 (crcShift1 (crcShift1 (crcShift1 (crcShift1 (crcShift1 (crcShift1 c)))))))

/-- Modelled from the spec: one-byte update of the CRC-16/CCITT state
(the byte is xored into the high 8 bits, then 8 shift steps run). -/
def crc16_update (c b : Nat) : Nat :=
  crcShift8 (c ^^^ ((b % 256) <<< 8))

/-- Modelled from the spec: `crc16_ccitt(bytes) -> u16`, polynomial 0x1021,
initial value 0, no reflection (legacy XMODEM-CRC definition). The C
implementation is not shipped in the repository headers. -/
def crc16_ccitt (bs : List Nat) : Nat :=
  bs.foldl crc16_update 0

/-- The classical 256-entry CRC-16/CCITT lookup table (explicit constants,
as published for the XMODEM-CRC variant). -/
def crcTable : List Nat := [
  0x0000, 0x1021, 0x2042, 0x3063, 0x4084, 0x50A5, 0x60C6, 0x70E7,
  0x8108, 0x9129, 0xA14A, 0xB16B, 0xC18C, 0xD1AD, 0xE1CE, 0xF1EF,
  0x1231, 0x0210, 0x3273, 0x2252, 0x52B5, 0x4294, 0x72F7, 0x62D6,
  0x9339, 0x8318, 0xB37B, 0xA35A, 0xD3BD, 0xC39C, 0xF3FF, 0xE3DE,
  0x2462, 0x3443, 0x0420, 0x1401, 0x64E6, 0x74C7, 0x44A4, 0x5485,
  0xA56A, 0xB54B, 0x8528, 0x9509, 0xE5EE, 0xF5CF, 0xC5AC, 0xD58D,
  0x3653, 0x2672, 0x1611, 0x0630, 0x76D7, 0x66F6, 0x5695, 0x46B4,
  0xB75B, 0xA77A, 0x9719, 0x8738, 0xF7DF, 0xE7FE, 0xD79D, 0xC7BC,
  0x48C4, 0x58E5, 0x6886, 0x78A7, 0x0840, 0x1861, 0x2802, 0x3823,
  0xC9CC, 0xD9ED, 0xE98E, 0xF9AF, 0x8948, 0x9969, 0xA90A, 0xB92B,
  0x5AF5, 0x4AD4, 0x7AB7, 0x6A96, 0x1A71, 0x0A50, 0x3A33, 0x2A12,
  0xDBFD, 0xCBDC, 0xFBBF, 0xEB9E, 0x9B79, 0x8B58, 0xBB3B, 0xAB1A,
  0x6CA6, 0x7C87, 0x4CE4, 0x5CC5, 0x2C22, 0x3C03, 0x0C60, 0x1C41,
  0xEDAE, 0xFD8F, 0xCDEC, 0xDDCD, 0xAD2A, 0xBD0B, 0x8D68, 0x9D49,
  0x7E97, 0x6EB6, 0x5ED5, 0x4EF4, 0x3E13, 0x2E32, 0x1E51, 0x0E70,
  0xFF9F, 0xEFBE, 0xDFDD, 0xCFFC, 0xBF1B, 0xAF3A, 0x9F59, 0x8F78,
  0x9188, 0x81A9, 0xB1CA, 0xA1EB, 0xD10C, 0xC12D, 0xF14E, 0xE16F,
  0x1080, 0x00A1, 0x30C2, 0x20E3, 0x5004, 0x4025, 0x7046, 0x6067,
  0x83B9, 0x9398, 0xA3FB, 0xB3DA, 0xC33D, 0xD31C, 0xE37F, 0xF35E,
  0x02B1, 0x1290, 0x22F3, 0x32D2, 0x4235, 0x5214, 0x6277, 0x7256,
  0xB5EA, 0xA5CB, 0x95A8, 0x8589, 0xF56E, 0xE54F, 0xD52C, 0xC50D,
  0x34E2, 0x24C3, 0x14A0, 0x0481, 0x7466, 0x6447, 0x5424, 0x4405,
  0xA7DB, 0xB7FA, 0x8799, 0x97B8, 0xE75F, 0xF77E, 0xC71D, 0xD73C,
  0x26D3, 0x36F2, 0x0691, 0x16B0, 0x6657, 0x7676, 0x4615, 0x5634,
  0xD94C, 0xC96D, 0xF90E, 0xE92F, 0x99C8, 0x89E9, 0xB98A, 0xA9AB,
  0x5844, 0x4865, 0x7806, 0x6827, 0x18C0, 0x08E1, 0x3882, 0x28A3,
  0xCB7D, 0xDB5C, 0xEB3F, 0xFB1E, 0x8BF9, 0x9BD8, 0xABBB, 0xBB9A,
  0x4A75, 0x5A54, 0x6A37, 0x7A16, 0x0AF1, 0x1AD0, 0x2AB3, 0x3A92,
  0xFD2E, 0xED0F, 0xDD6C, 0xCD4D, 0xBDAA, 0xAD8B, 0x9DE8, 0x8DC9,
  0x7C26, 0x6C07, 0x5C64, 0x4C45, 0x3CA2, 0x2C83, 0x1CE0, 0x0CC1,
  0xEF1F, 0xFF3E, 0xCF5D, 0xDF7C, 0xAF9B, 0xBFBA, 0x8FD9, 0x9FF8,
  0x6E17, 0x7E36, 0x4E55, 0x5E74, 0x2E93, 0x3EB2, 0x0ED1, 0x1EF0
]

/-- One-byte update of the classical table-driven CRC-16/CCITT computation. -/
def crc16_table_update (c b : Nat) : Nat :=
  ((c <<< 8) % 65536) ^^^ crcTable.getD (((c >>> 8) ^^^ (b % 256)) % 256) 0

/-- The classical table-driven CRC-16/CCITT reference computation. -/
def crc16_table_ref (bs : List Nat) : Nat :=
  bs.foldl crc16_table_update 0

/-! ## Packet framer -/

/-- Modelled from the spec (section 3 data model): the protocol a session is
bound to is one of exactly {XMODEM-checksum, XMODEM-CRC, XMODEM-1K, YMODEM}.
The `transfer.h` enum also carries a `TRANSFER_ZMODEM` tag, but per spec
section 1 the ZMODEM transfer path is not implemented (only the stateless
autostart sniffer below), so it is not a session protocol. -/
inductive TransferProtocol
  | xmodem
  | xmodemCrc
  | xmodem1k
  | ymodem
deriving DecidableEq, Repr

/-- Payload block size of a protocol: 1024 bytes for XMODEM-1K, 128 otherwise. -/
def blockSize : TransferProtocol → Nat
  | .xmodem1k => 1024
  | _ => 128

/-- Whether the protocol uses the CRC-16 trailer (only plain XMODEM uses the
8-bit additive checksum). -/
def usesCrc : TransferProtocol → Bool
  | .xmodem => false
  | _ => true

/-- Trailer length in bytes: 2 for CRC mode, 1 for checksum mode. -/
def trailerLen (p : TransferProtocol) : Nat :=
  if usesCrc p then 2 else 1

/-- Header tag a protocol uses for its data blocks: STX for 1K blocks,
SOH for 128-byte blocks. -/
def headerByte (p : TransferProtocol) : Nat :=
  if blockSize p = 1024 then STX else SOH

/-- Mode-selection handshake byte a receiver emits: NAK for checksum mode,
the character C (0x43) for CRC mode. -/
def handshakeByte (p : TransferProtocol) : Nat :=
  if usesCrc p then CC else NAK

/-- The trailer bytes (1-byte checksum or big-endian 2-byte CRC) computed
over the given bytes. -/
def computeTrailer (p : TransferProtocol) (bs : List Nat) : List Nat :=
  if usesCrc p then
    let c := crc16_ccitt bs
    [c >>> 8, c % 256]
  else
    [checksum8 bs]

/-- Modelled from the spec: `encode_data_block(protocol, block_number,
payload)`. SOH or STX header per protocol, block number and its complement,
payload padded with 0x1A to the block size, checksum or CRC trailer computed
over header plus payload. Fails (returns `none`) if the payload exceeds the
block size. The C implementation is not shipped in the repository headers. -/
def encode_data_block (p : TransferProtocol) (n : Nat) (payload : List Nat) :
    Option (List Nat) :=
  if payload.length > blockSize p then none
  else
    let padded := payload ++ List.replicate (blockSize p - payload.length) PAD
    let body := headerByte p :: (n % 256) :: (255 - n % 256) :: padded
    some (body ++ computeTrailer p body)

/-- A decoded data packet: the wire block number and the (padded) payload. -/
structure Packet where
  blockNumber : Nat
  payload : List Nat
deriving DecidableEq, Repr

/-- Result of attempting to decode one frame from a buffer. -/
inductive DecodeResult
  | Incomplete
  | Invalid
  | Valid (packet : Packet) (consumed : Nat)
deriving DecidableEq, Repr

/-- Payload size implied by a frame header tag: 128 for SOH, 1024 for STX,
unrecognized otherwise. -/
def tagPayloadSize (tag : Nat) : Option Nat :=
  if tag = SOH then some 128
  else if tag = STX then some 1024
  else none

/-- Total frame length for a payload size under a protocol: 3 header bytes,
the payload, and the trailer. -/
def frameLen (p : TransferProtocol) (psz : Nat) : Nat :=
  3 + psz + trailerLen p

/-- The integrity checks a complete frame must pass: the complement byte
equals 0xFF minus the block number, and the trailer matches the verification
function computed over header plus payload. -/
def frameOk (p : TransferProtocol) (buf : List Nat) (psz : Nat) : Prop :=
  buf.getD 2 0 = 255 - buf.getD 1 0 ∧
    (buf.drop (3 + psz)).take (trailerLen p) =
      computeTrailer p (buf.take 3 ++ (buf.drop 3).take psz)

instance (p : TransferProtocol) (buf : List Nat) (psz : Nat) :
    Decidable (frameOk p buf psz) := by
  unfold frameOk; infer_instance

/-- Modelled from the spec: `try_decode_frame(protocol, buffer)`. Returns
`Incomplete` when the buffer holds fewer bytes than the frame implied by its
header tag, `Invalid` on an unrecognized tag or failed integrity checks, and
otherwise `Valid` with the decoded packet and the number of bytes consumed.
The C implementation is not shipped in the repository headers. -/
def try_decode_frame (p : TransferProtocol) (buf : List Nat) : DecodeResult :=
  match buf with
  | [] => .Incomplete
  | tag :: _ =>
    match tagPayloadSize tag with
    | none => .Invalid
    | some psz =>
      if buf.length < frameLen p psz then .Incomplete
      else if frameOk p buf psz then
        .Valid ⟨buf.getD 1 0, (buf.drop 3).take psz⟩ (frameLen p psz)
      else .Invalid

/-! ## ZMODEM autostart detector -/

/-- The literal ZMODEM initiation sequence: two asterisks, CAN, and the
characters B, 0, 0. -/
def zmodemAutostartSeq : List Nat := [0x2A, 0x2A, 0x18, 0x42, 0x30, 0x30]

/-- Modelled from the spec: `scan_for_autostart(window)`, a stateless scanner
returning true iff the window contains the ZMODEM initiation sequence as a
contiguous substring. The C implementation is not shipped in the repository
headers. -/
def scan_for_autostart : List Nat → Bool
  | [] => false
  | b :: rest =>
    zmodemAutostartSeq.isPrefixOf (b :: rest) || scan_for_autostart rest

/-- The `transfer_detect_zmodem_autostart` entry point of `transfer.h`,
which checks whether the data contains the ZMODEM auto-start sequence. -/
def transfer_detect_zmodem_autostart (data : List Nat) : Bool :=
  scan_for_autostart data

/-! ## Transfer session state machine -/

/-- Transfer direction, from `transfer.h` (`TransferDirection`). -/
inductive TransferDirection
  | send
  | receive
deriving DecidableEq, Repr

/-- Transfer state, from `transfer.h` (`TransferState`). -/
inductive TransferState
  | idle
  | starting
  | transferring
  | completing
  | completed
  | cancelled
  | failed
deriving DecidableEq, Repr

/-- The terminal states: completed, cancelled, failed. -/
def TransferState.isTerminal : TransferState → Bool
  | .completed => true
  | .cancelled => true
  | .failed => true
  | _ => false

/-- The active states: starting, transferring, completing
(spec: `transfer_is_active` is true exactly for these). -/
def TransferState.isActive : TransferState → Bool
  | .starting => true
  | .transferring => true
  | .completing => true
  | _ => false

/-- Transfer events, from `transfer.h` (`TransferEventType`) and the spec's
`TransferEvent` tagged variant. -/
inductive TransferEvent
  | Started (fileName : String) (fileSize : Nat)
  | Progress (bytesTransferred : Nat)
  | SendData (bytes : List Nat)
  | Completed
  | Failed (msg : String)
  | Cancelled
deriving DecidableEq, Repr

/-- The terminal events: Completed, Failed, Cancelled. -/
def isTerminalEvent : TransferEvent → Bool
  | .Completed => true
  | .Failed _ => true
  | .Cancelled => true
  | _ => false

/-- The retry ceiling: 10 consecutive NAKs for one block, matching the legacy
convention the spec documents. -/
def retryCeiling : Nat := 10

/-- Modelled from the spec (section 3 data model): the `TransferSession`
record behind the opaque `TransferHandle` of `transfer.h`. `remaining` is
the not-yet-acknowledged suffix of the send payload (the current outstanding
block is its first `blockSize` bytes); for a receive session `blockNumber`
is the next expected wire block number. -/
structure Session where
  protocol : TransferProtocol
  direction : TransferDirection
  state : TransferState
  blockNumber : Nat
  retryCount : Nat
  errorCount : Nat
  remaining : List Nat
  fileName : String
  totalBytes : Nat
  bytesTransferred : Nat
  receiveSink : List Nat
  inbound : List Nat
  lastCan : Bool
deriving DecidableEq, Repr

/-- Modelled from the spec: `transfer_create(protocol, ...)` builds an idle
session bound to one protocol. -/
def transfer_create (p : TransferProtocol) : Session :=
  { protocol := p
    direction := .send
    state := .idle
    blockNumber := 0
    retryCount := 0
    errorCount := 0
    remaining := []
    fileName := ""
    totalBytes := 0
    bytesTransferred := 0
    receiveSink := []
    inbound := []
    lastCan := false }

/-- Modelled from the spec: `transfer_start_send` moves an idle session to
starting with the whole file payload as the send source. -/
def transfer_start_send (s : Session) (name : String) (data : List Nat) :
    Session × List TransferEvent :=
  if s.state = .idle then
    ({ s with direction := .send
              state := .starting
              remaining := data
              fileName := name
              totalBytes := data.length
              blockNumber := 1 },
     [.Started name data.length])
  else (s, [])

/-- Modelled from the spec: `transfer_start_receive` moves an idle session to
starting and emits the mode-selection byte (NAK for checksum mode, C for CRC
mode) as a `SendData` event. The first expected block number is 0 for the
YMODEM header block and 1 for XMODEM data blocks. -/
def transfer_start_receive (s : Session) : Session × List TransferEvent :=
  if s.state = .idle then
    ({ s with direction := .receive
              state := .starting
              blockNumber := if s.protocol = .ymodem then 0 else 1 },
     [.Started s.fileName 0, .SendData [handshakeByte s.protocol]])
  else (s, [])

/-- The bytes of the current outstanding block of a send session. -/
def currentBlockBytes (s : Session) : List Nat :=
  (encode_data_block s.protocol s.blockNumber
    (s.remaining.take (blockSize s.protocol))).getD []

/-- Modelled from the spec (section 4.4 send path): how a send session reacts
to one inbound byte. Two consecutive CAN bytes cancel immediately; a
handshake byte in starting emits the first block (or EOT for an empty
payload); an ACK in transferring advances to the next block or to
completing + EOT; a NAK re-emits the current block until the retry ceiling
is exceeded, which fails the session; an ACK in completing completes. -/
def processSendByte (s : Session) (b : Nat) : Session × List TransferEvent :=
  if b = CAN then
    if s.lastCan then
      ({ s with state := .cancelled, lastCan := false, remaining := [], inbound := [] },
       [.Cancelled])
    else ({ s with lastCan := true }, [])
  else
    let s := { s with lastCan := false }
    match s.state with
    | .starting =>
      if b = handshakeByte s.protocol then
        if s.remaining.isEmpty then
          ({ s with state := .completing }, [.SendData [EOT]])
        else
          ({ s with state := .transferring }, [.SendData (currentBlockBytes s)])
      else (s, [])
    | .transferring =>
      if b = ACK then
        let rest := s.remaining.drop (blockSize s.protocol)
        let s := { s with remaining := rest
                          blockNumber := s.blockNumber + 1
                          retryCount := 0
                          bytesTransferred :=
                            s.bytesTransferred + min (blockSize s.protocol) s.remaining.length }
        if rest.isEmpty then
          ({ s with state := .completing }, [.SendData [EOT]])
        else
          (s, [.SendData (currentBlockBytes s)])
      else if b = NAK then
        if s.retryCount + 1 > retryCeiling then
          ({ s with state := .failed, retryCount := s.retryCount + 1 },
           [.Failed "retry limit exceeded"])
        else
          ({ s with retryCount := s.retryCount + 1, errorCount := s.errorCount + 1 },
           [.SendData (currentBlockBytes s)])
      else (s, [])
    | .completing =>
      if b = ACK then ({ s with state := .completed }, [.Completed])
      else (s, [])
    | _ => (s, [])

/-- Modelled from the spec (section 4.4 receive path): how a receive session
reacts to one inbound byte. At a frame boundary (empty accumulator) a CAN
pair cancels, an EOT is ACKed and completes the session, and an SOH/STX
seeds the frame accumulator; inside a frame, bytes accumulate until the
framer reports a complete frame, which is then ACKed (appending the payload
exactly once; a duplicate of the previous block is ACKed without being
re-appended) or NAKed (counting against the retry ceiling). -/
def processRecvByte (s : Session) (b : Nat) : Session × List TransferEvent :=
  if s.inbound.isEmpty then
    if b = CAN then
      if s.lastCan then
        ({ s with state := .cancelled, lastCan := false, remaining := [], inbound := [] },
         [.Cancelled])
      else ({ s with lastCan := true }, [])
    else
      let s := { s with lastCan := false }
      if b = EOT then
        ({ s with state := .completed }, [.SendData [ACK], .Completed])
      else if b = SOH ∨ b = STX then
        ({ s with inbound := [b] }, [])
      else (s, [])
  else
    let buf := s.inbound ++ [b]
    match try_decode_frame s.protocol buf with
    | .Incomplete => ({ s with inbound := buf }, [])
    | .Invalid =>
      if s.retryCount + 1 > retryCeiling then
        ({ s with state := .failed, inbound := [], retryCount := s.retryCount + 1 },
         [.Failed "retry limit exceeded"])
      else
        ({ s with inbound := [], retryCount := s.retryCount + 1,
                  errorCount := s.errorCount + 1 },
         [.SendData [NAK]])
    | .Valid pk _ =>
      if pk.blockNumber = s.blockNumber % 256 then
        ({ s with state := .transferring
                  inbound := []
                  receiveSink := s.receiveSink ++ pk.payload
                  blockNumber := s.blockNumber + 1
                  retryCount := 0
                  bytesTransferred := s.bytesTransferred + pk.payload.length },
         [.SendData [ACK]])
      else if pk.blockNumber = (s.blockNumber + 255) % 256 then
        ({ s with inbound := [] }, [.SendData [ACK]])
      else if s.retryCount + 1 > retryCeiling then
        ({ s with state := .failed, inbound := [], retryCount := s.retryCount + 1 },
         [.Failed "retry limit exceeded"])
      else
        ({ s with inbound := [], retryCount := s.retryCount + 1,
                  errorCount := s.errorCount + 1 },
         [.SendData [NAK]])

/-- One inbound byte: terminal and idle sessions ignore data; otherwise the
byte is handled by the direction-specific step. -/
def processByte (s : Session) (b : Nat) : Session × List TransferEvent :=
  if s.state.isTerminal then (s, [])
  else if s.state = .idle then (s, [])
  else
    match s.direction with
    | .send => processSendByte s b
    | .receive => processRecvByte s b

/-- Modelled from the spec: `transfer_process_data(handle, data, len)`
processes the received bytes one at a time, synchronously, collecting the
emitted events. The C implementation is not shipped in the repository
headers. -/
def transfer_process_data (s : Session) : List Nat → Session × List TransferEvent
  | [] => (s, [])
  | b :: bs =>
    let r := processByte s b
    let r' := transfer_process_data r.1 bs
    (r'.1, r.2 ++ r'.2)

/-- Modelled from the spec: `transfer_cancel` synchronously cancels any
non-terminal session, clearing buffers, and requests the CAN pair be sent
when the session had begun exchanging frames. -/
def transfer_cancel (s : Session) : Session × List TransferEvent :=
  if s.state.isTerminal then (s, [])
  else
    ({ s with state := .cancelled, remaining := [], inbound := [], lastCan := false },
     if s.state.isActive then [.SendData [CAN, CAN], .Cancelled] else [.Cancelled])

/-- Modelled from the spec: `transfer_is_active` is true exactly for the
states starting, transferring and completing. -/
def transfer_is_active (s : Session) : Bool :=
  s.state.isActive

/-- One operation of the session API surface. -/
inductive Op
  | opStartSend (name : String) (data : List Nat)
  | opStartReceive
  | opProcess (data : List Nat)
  | opCancel

/-- Apply one API operation to a session. -/
def applyOp (s : Session) : Op → Session × List TransferEvent
  | .opStartSend name data => transfer_start_send s name data
  | .opStartReceive => transfer_start_receive s
  | .opProcess data => transfer_process_data s data
  | .opCancel => transfer_cancel s

/-- Run a sequence of API operations, collecting all emitted events. -/
def runOps (s : Session) : List Op → Session × List TransferEvent
  | [] => (s, [])
  | op :: ops =>
    let r := applyOp s op
    let r' := runOps r.1 ops
    (r'.1, r.2 ++ r'.2)

/-- The number of terminal events in an event list. -/
def countTerminalEvents (evs : List TransferEvent) : Nat :=
  (evs.filter isTerminalEvent).length

/-! ## Whole-file send run (spec section 8, XMODEM-1K scenario) -/

/-- The block size is positive for every protocol. -/
theorem blockSize_pos (p : TransferProtocol) : 0 < blockSize p := by
  cases p <;> simp [blockSize]

/-- The sequence of encoded data blocks a send source yields, starting at a
given block number: successive `blockSize` chunks, each wrapped by the
framer. -/
def sendBlocks (p : TransferProtocol) (n : Nat) (l : List Nat) : List (List Nat) :=
  if h : l = [] then []
  else
    (encode_data_block p n (l.take (blockSize p))).getD [] ::
      sendBlocks p (n + 1) (l.drop (blockSize p))
termination_by l.length
decreasing_by
  have hbs := blockSize_pos p
  have : l.length ≠ 0 := by simpa [List.length_eq_zero] using h
  simp only [List.length_drop]
  omega

/-- Feed ACK bytes to a session, one `transfer_process_data` call at a time,
until it reaches a terminal state (or fuel runs out), collecting events. -/
def ackLoop : Nat → Session → Session × List TransferEvent
  | 0, s => (s, [])
  | fuel + 1, s =>
    if s.state.isTerminal then (s, [])
    else
      let r := transfer_process_data s [ACK]
      let r' := ackLoop fuel r.1
      (r'.1, r.2 ++ r'.2)

/-- A complete happy-path XMODEM-1K send session: create, start, receive the
CRC-mode handshake, then an ACK for every outstanding block and for the EOT. -/
def runSendXmodem1k (payload : List Nat) : Session × List TransferEvent :=
  ((ackLoop (payload.length + 2)
      (transfer_process_data
        (transfer_start_send (transfer_create .xmodem1k) "file" payload).1 [CC]).1).1,
   (transfer_start_send (transfer_create .xmodem1k) "file" payload).2 ++
     (transfer_process_data
       (transfer_start_send (transfer_create .xmodem1k) "file" payload).1 [CC]).2 ++
     (ackLoop (payload.length + 2)
       (transfer_process_data
         (transfer_start_send (transfer_create .xmodem1k) "file" payload).1 [CC]).1).2)

/-- The payloads of the `SendData` events in an event list, in order. -/
def sendDataPayloads (evs : List TransferEvent) : List (List Nat) :=
  evs.filterMap fun e =>
    match e with
    | .SendData bs => some bs
    | _ => none

/-- The payload a receiver recovers from one emitted frame, via the framer. -/
def decodedPayloadOf (p : TransferProtocol) (bytes : List Nat) : List Nat :=
  match try_decode_frame p bytes with
  | .Valid pk _ => pk.payload
  | _ => []

/-! ## CRC-16/CCITT: bitwise computation equals the table-driven reference -/

/-- Rearrangement of a fourfold xor. -/
theorem xor_xor_comm4 (a b c d : Nat) :
    (a ^^^ b) ^^^ (c ^^^ d) = (a ^^^ c) ^^^ (b ^^^ d) := by
  apply Nat.eq_of_testBit_eq
  intro i
  simp only [Nat.testBit_xor]
  cases a.testBit i <;> cases b.testBit i <;> cases c.testBit i <;> cases d.testBit i <;> rfl

/-- Left shift distributes over xor. -/
theorem shiftLeft_xor_distrib (x y n : Nat) :
    (x ^^^ y) <<< n = (x <<< n) ^^^ (y <<< n) := by
  apply Nat.eq_of_testBit_eq
  intro i
  simp only [Nat.testBit_xor, Nat.testBit_shiftLeft]
  by_cases h : n ≤ i <;> simp [h]

/-- Truncation to a power of two distributes over xor. -/
theorem mod_two_pow_xor_distrib (x y n : Nat) :
    (x ^^^ y) % 2 ^ n = (x % 2 ^ n) ^^^ (y % 2 ^ n) := by
  apply Nat.eq_of_testBit_eq
  intro i
  simp only [Nat.testBit_xor, Nat.testBit_mod_two_pow]
  by_cases h : i < n <;> simp [h]

/-- A single CRC shift step stays below 2^16. -/
theorem crcShift1_lt (c : Nat) : crcShift1 c < 65536 := by
  unfold crcShift1
  split <;> exact Nat.mod_lt _ (by norm_num)

/-- Closed form of one CRC shift step: a truncated shift xored with the
polynomial exactly when the top bit was set. -/
theorem crcShift1_eq (c : Nat) :
    crcShift1 c = ((c <<< 1) % 65536) ^^^ (if c.testBit 15 then 0x1021 else 0) := by
  unfold crcShift1
  have h16 : (65536 : Nat) = 2 ^ 16 := by norm_num
  split
  · rw [h16]
    apply Nat.eq_of_testBit_eq
    intro i
    simp only [Nat.testBit_mod_two_pow, Nat.testBit_xor]
    by_cases h : i < 16
    · simp [h]
    · have hp : (0x1021 : Nat).testBit i = false := by
        apply Nat.testBit_lt_two_pow
        calc (0x1021 : Nat) < 2 ^ 16 := by norm_num
          _ ≤ 2 ^ i := Nat.pow_le_pow_right (by norm_num) (by omega)
      simp [h, hp]
  · simp

/-- A CRC shift step is linear over xor. -/
theorem crcShift1_xor (x y : Nat) :
    crcShift1 (x ^^^ y) = crcShift1 x ^^^ crcShift1 y := by
  have h16 : (65536 : Nat) = 2 ^ 16 := by norm_num
  rw [crcShift1_eq, crcShift1_eq, crcShift1_eq, xor_xor_comm4]
  rw [shiftLeft_xor_distrib, h16, mod_two_pow_xor_distrib]
  congr 1
  rw [Nat.testBit_xor]
  cases hx : x.testBit 15 <;> cases hy : y.testBit 15 <;> simp

/-- Eight CRC shift steps are linear over xor. -/
theorem crcShift8_xor (x y : Nat) :
    crcShift8 (x ^^^ y) = crcShift8 x ^^^ crcShift8 y := by
  unfold crcShift8
  simp only [crcShift1_xor]

set_option maxRecDepth 4000 in
/-- On a value below 2^8 eight CRC shift steps are a plain shift: the top
bit is never reached. -/
theorem crcShift8_small : ∀ x < 256, crcShift8 x = x <<< 8 := by decide

set_option maxRecDepth 4000 in
/-- Each entry of the classical table is the polynomial reduction of the
index placed in the high byte. -/
theorem crcTable_correct : ∀ i < 256, crcTable.getD i 0 = crcShift8 (i <<< 8) := by decide

/-- A left-shifted value xored with a small remainder is their sum. -/
theorem shiftLeft_xor_small (a r : Nat) (hr : r < 256) :
    (a <<< 8) ^^^ r = 2 ^ 8 * a + r := by
  apply Nat.eq_of_testBit_eq
  intro j
  rw [Nat.testBit_mul_pow_two_add a (by omega : r < 2 ^ 8) j]
  simp only [Nat.testBit_xor, Nat.testBit_shiftLeft]
  by_cases h : j < 8
  · simp [h, Nat.not_le.mpr h]
  · have hrj : r.testBit j = false := by
      apply Nat.testBit_lt_two_pow
      calc r < 2 ^ 8 := by omega
        _ ≤ 2 ^ j := Nat.pow_le_pow_right (by norm_num) (by omega)
    simp [h, Nat.not_lt.mp h, hrj]

/-- A 16-bit value is the xor of its shifted high byte and its low byte. -/
theorem split16 (c : Nat) (_hc : c < 65536) :
    c = ((c >>> 8) <<< 8) ^^^ (c % 256) := by
  rw [shiftLeft_xor_small _ _ (Nat.mod_lt _ (by norm_num))]
  rw [Nat.shiftRight_eq_div_pow]
  omega

/-- One byte of the bitwise CRC computation agrees with one byte of the
table-driven computation on every 16-bit state. -/
theorem crc16_update_eq_table (c b : Nat) (hc : c < 65536) :
    crc16_update c b = crc16_table_update c b := by
  have hb : b % 256 < 256 := Nat.mod_lt _ (by norm_num)
  have hhi : c >>> 8 < 256 := by
    rw [Nat.shiftRight_eq_div_pow]; omega
  have hlo : c % 256 < 256 := Nat.mod_lt _ (by norm_num)
  have hidx : (c >>> 8) ^^^ (b % 256) < 256 := by
    have := Nat.xor_lt_two_pow (n := 8) (by omega : c >>> 8 < 2 ^ 8) (by omega : b % 256 < 2 ^ 8)
    omega
  unfold crc16_update crc16_table_update
  calc crcShift8 (c ^^^ ((b % 256) <<< 8))
      = crcShift8 ((((c >>> 8) <<< 8) ^^^ (c % 256)) ^^^ ((b % 256) <<< 8)) := by
        rw [← split16 c hc]
    _ = crcShift8 ((((c >>> 8) <<< 8) ^^^ ((b % 256) <<< 8)) ^^^ (c % 256)) := by
        rw [Nat.xor_assoc, Nat.xor_comm (c % 256), ← Nat.xor_assoc]
    _ = crcShift8 ((((c >>> 8) ^^^ (b % 256)) <<< 8) ^^^ (c % 256)) := by
        rw [shiftLeft_xor_distrib]
    _ = crcShift8 (((c >>> 8) ^^^ (b % 256)) <<< 8) ^^^ crcShift8 (c % 256) := by
        rw [crcShift8_xor]
    _ = crcTable.getD ((c >>> 8) ^^^ (b % 256)) 0 ^^^ ((c % 256) <<< 8) := by
        rw [crcTable_correct _ hidx, crcShift8_small _ hlo]
    _ = ((c <<< 8) % 65536) ^^^ crcTable.getD (((c >>> 8) ^^^ (b % 256)) % 256) 0 := by
        rw [Nat.mod_eq_of_lt hidx, Nat.xor_comm]
        congr 1
        rw [Nat.shiftLeft_eq, Nat.shiftLeft_eq]
        norm_num
        omega

/-- The bitwise CRC fold agrees with the table-driven fold from any 16-bit
starting state. -/
theorem crc16_fold_eq_table :
    ∀ (bs : List Nat) (c : Nat), c < 65536 →
      bs.foldl crc16_update c = bs.foldl crc16_table_update c := by
  intro bs
  induction bs with
  | nil => intro c _; rfl
  | cons b rest ih =>
    intro c hc
    have hstep : crc16_update c b < 65536 := crcShift1_lt _
    simp only [List.foldl_cons]
    rw [← crc16_update_eq_table c b hc]
    exact ih _ hstep

/-- C2: `crc16_ccitt` is the CRC-16/CCITT function with polynomial 0x1021,
initial value 0 and no reflection: it yields 0x0000 on the empty sequence
and equals the classical table-driven reference computation on every byte
sequence. -/
theorem crc16_ccitt_matches_table_reference :
    crc16_ccitt [] = 0 ∧ ∀ bs : List Nat, crc16_ccitt bs = crc16_table_ref bs :=
  ⟨rfl, fun bs => crc16_fold_eq_table bs 0 (by norm_num)⟩

/-! ## Framer round-trip -/

/-- The header tag a protocol emits implies exactly that protocol's block
size when decoded. -/
theorem tagPayloadSize_headerByte (p : TransferProtocol) :
    tagPayloadSize (headerByte p) = some (blockSize p) := by
  cases p <;> rfl

/-- The trailer has exactly `trailerLen` bytes. -/
theorem computeTrailer_length (p : TransferProtocol) (bs : List Nat) :
    (computeTrailer p bs).length = trailerLen p := by
  unfold computeTrailer trailerLen
  split <;> simp

/-- Round-trip of the framer: encoding any in-range payload yields bytes the
decoder accepts, recovering the wire block number and the padded payload. -/
theorem encode_decode_roundtrip (p : TransferProtocol) (n : Nat) (payload : List Nat)
    (hp : payload.length ≤ blockSize p) :
    ∃ bytes, encode_data_block p n payload = some bytes ∧
      try_decode_frame p bytes =
        .Valid ⟨n % 256, payload ++ List.replicate (blockSize p - payload.length) PAD⟩
          (frameLen p (blockSize p)) := by
  have hpadlen :
      (payload ++ List.replicate (blockSize p - payload.length) PAD).length = blockSize p := by
    simp only [List.length_append, List.length_replicate]
    omega
  set padded := payload ++ List.replicate (blockSize p - payload.length) PAD with hpad
  set body := headerByte p :: (n % 256) :: (255 - n % 256) :: padded with hbody
  set trail := computeTrailer p body with htrail
  have henc : encode_data_block p n payload = some (body ++ trail) := by
    unfold encode_data_block
    rw [if_neg (by omega)]
  refine ⟨body ++ trail, henc, ?_⟩
  have htraillen : trail.length = trailerLen p := computeTrailer_length p body
  have hbytes : body ++ trail =
      headerByte p :: (n % 256) :: (255 - n % 256) :: (padded ++ trail) := by
    simp [hbody]
  rw [hbytes]
  have hlen : (headerByte p :: (n % 256) :: (255 - n % 256) :: (padded ++ trail)).length =
      frameLen p (blockSize p) := by
    simp only [List.length_cons, List.length_append, hpadlen, htraillen, frameLen]
    omega
  have hdrop3 :
      (headerByte p :: (n % 256) :: (255 - n % 256) :: (padded ++ trail)).drop 3 =
        padded ++ trail := rfl
  have htake :
      (padded ++ trail).take (blockSize p) = padded := by
    rw [← hpadlen]
    exact List.take_left padded trail
  have hdropb :
      (padded ++ trail).drop (blockSize p) = trail := by
    rw [← hpadlen]
    exact List.drop_left padded trail
  have hassoc : headerByte p :: (n % 256) :: (255 - n % 256) :: (padded ++ trail) =
      ([headerByte p, n % 256, 255 - n % 256] ++ padded) ++ trail := by
    simp
  have h3 : (headerByte p :: (n % 256) :: (255 - n % 256) :: (padded ++ trail)).drop
      (3 + blockSize p) = trail := by
    rw [hassoc]
    apply List.drop_left'
    simp [hpadlen]
    omega
  have hok : frameOk p
      (headerByte p :: (n % 256) :: (255 - n % 256) :: (padded ++ trail)) (blockSize p) := by
    constructor
    · simp [List.getD]
    · show ((headerByte p :: (n % 256) :: (255 - n % 256) :: (padded ++ trail)).drop
          (3 + blockSize p)).take (trailerLen p) = _
      rw [h3, ← htraillen, List.take_length]
      show trail = computeTrailer p
        ([headerByte p, n % 256, 255 - n % 256] ++ (padded ++ trail).take (blockSize p))
      rw [htake]
      rfl
  simp only [try_decode_frame, tagPayloadSize_headerByte]
  simp only [hlen]
  rw [if_neg (by omega), if_pos hok]
  simp [htake, List.getD]

/-- C1: for every protocol variant, every wire block number and every payload
not exceeding the protocol's block size, decoding the bytes produced by
`encode_data_block` yields `Valid` with the original block number and the
original payload padded with 0x1A to the block size. -/
theorem encode_then_decode_valid (p : TransferProtocol) (n : Nat) (payload : List Nat)
    (hn : n < 256) (hp : payload.length ≤ blockSize p) :
    ∃ bytes, encode_data_block p n payload = some bytes ∧
      try_decode_frame p bytes =
        .Valid ⟨n, payload ++ List.replicate (blockSize p - payload.length) PAD⟩
          (frameLen p (blockSize p)) := by
  have h := encode_decode_roundtrip p n payload hp
  rwa [Nat.mod_eq_of_lt hn] at h

/-- Witness for C1: a concrete XMODEM frame for block 1 with a short payload
round-trips. -/
theorem encode_then_decode_valid_witness :
    ∃ bytes, encode_data_block .xmodem 1 [7, 8] = some bytes ∧
      try_decode_frame .xmodem bytes =
        .Valid ⟨1, [7, 8] ++ List.replicate (blockSize .xmodem - 2) PAD⟩
          (frameLen .xmodem (blockSize .xmodem)) :=
  encode_then_decode_valid .xmodem 1 [7, 8] (by decide) (by decide)

/-! ## ZMODEM autostart detection -/

/-- The scanner fires exactly on windows containing the autostart sequence
as a contiguous substring. -/
theorem scan_for_autostart_iff (l : List Nat) :
    scan_for_autostart l = true ↔ ∃ u v, l = u ++ zmodemAutostartSeq ++ v := by
  induction l with
  | nil =>
    refine ⟨fun h => absurd h (by decide), ?_⟩
    rintro ⟨u, v, h⟩
    exfalso
    rw [List.append_assoc] at h
    rcases List.append_eq_nil.mp h.symm with ⟨-, h2⟩
    rcases List.append_eq_nil.mp h2 with ⟨h3, -⟩
    simp [zmodemAutostartSeq] at h3
  | cons b t ih =>
    simp only [scan_for_autostart, Bool.or_eq_true, ih]
    constructor
    · rintro (hpre | ⟨u, v, rfl⟩)
      · rw [List.isPrefixOf_iff_prefix] at hpre
        obtain ⟨v, hv⟩ := hpre
        exact ⟨[], v, by simp [← hv]⟩
      · exact ⟨b :: u, v, rfl⟩
    · rintro ⟨u, v, h⟩
      cases u with
      | nil =>
        left
        rw [List.isPrefixOf_iff_prefix]
        exact ⟨v, by simpa using h.symm⟩
      | cons x u' =>
        right
        simp only [List.cons_append, List.cons.injEq] at h
        exact ⟨u', v, h.2⟩

/-- C9 (amended): the ZMODEM autostart detector returns true if and only if
the window contains the literal six-byte sequence 0x2A 0x2A 0x18 0x42 0x30
0x30 (two asterisks, CAN, B, 0, 0) as a contiguous substring; it is a pure
function of its input. -/
theorem detect_zmodem_autostart_iff_contains (w : List Nat) :
    transfer_detect_zmodem_autostart w = true ↔
      ∃ u v, w = u ++ zmodemAutostartSeq ++ v :=
  scan_for_autostart_iff w

/-- Counterexample to C9 as stated: the autostart sequence named by the
claim has six bytes, not five, and no five-byte window — in particular not
the five-byte prefix of the sequence — makes the detector fire. -/
theorem autostart_sequence_not_five_bytes :
    zmodemAutostartSeq.length = 6 ∧
    transfer_detect_zmodem_autostart [0x2A, 0x2A, 0x18, 0x42, 0x30] = false ∧
    transfer_detect_zmodem_autostart zmodemAutostartSeq = true := by decide

/-! ## Decode characterization (C3) -/

/-- C3: `try_decode_frame` is a pure function of the buffer returning one of
exactly Incomplete, Valid or Invalid: Incomplete on an empty buffer or one
shorter than the frame its recognized header tag implies; Invalid on an
unrecognized tag or, for a complete frame, failed complement/trailer checks;
Valid with the consumed frame length otherwise. -/
theorem try_decode_frame_characterization (p : TransferProtocol) (buf : List Nat) :
    (buf = [] → try_decode_frame p buf = .Incomplete) ∧
    (∀ tag rest, buf = tag :: rest →
      (tagPayloadSize tag = none → try_decode_frame p buf = .Invalid) ∧
      (∀ psz, tagPayloadSize tag = some psz →
        (buf.length < frameLen p psz → try_decode_frame p buf = .Incomplete) ∧
        (frameLen p psz ≤ buf.length →
          (frameOk p buf psz →
            try_decode_frame p buf =
              .Valid ⟨buf.getD 1 0, (buf.drop 3).take psz⟩ (frameLen p psz)) ∧
          (¬ frameOk p buf psz → try_decode_frame p buf = .Invalid)))) := by
  refine ⟨?_, ?_⟩
  · rintro rfl
    rfl
  · rintro tag rest rfl
    refine ⟨?_, ?_⟩
    · intro hnone
      simp [try_decode_frame, hnone]
    · intro psz hsome
      refine ⟨?_, ?_⟩
      · intro hshort
        simp only [try_decode_frame, hsome]
        rw [if_pos hshort]
      · intro hlong
        have hnl : ¬ (tag :: rest).length < frameLen p psz := Nat.not_lt.mpr hlong
        refine ⟨?_, ?_⟩
        · intro hok
          simp only [try_decode_frame, hsome]
          rw [if_neg hnl, if_pos hok]
        · intro hbad
          simp only [try_decode_frame, hsome]
          rw [if_neg hnl, if_neg hbad]

set_option maxRecDepth 10000 in
/-- Witness for C3: concrete instances of each implication — the empty
buffer is Incomplete, an unrecognized tag is Invalid, a short SOH buffer is
Incomplete, and a complete well-formed checksum frame is Valid. -/
theorem try_decode_frame_characterization_witness :
    try_decode_frame .xmodem [] = .Incomplete ∧
    try_decode_frame .xmodem [0x55] = .Invalid ∧
    try_decode_frame .xmodem [SOH, 1, 254] = .Incomplete ∧
    try_decode_frame .xmodem (SOH :: 1 :: 254 :: (List.replicate 128 0 ++ [0])) =
      .Valid ⟨1, List.replicate 128 0⟩ 132 := by
  refine ⟨?_, ?_, ?_, ?_⟩
  · exact (try_decode_frame_characterization .xmodem []).1 rfl
  · exact (((try_decode_frame_characterization .xmodem [0x55]).2 0x55 [] rfl).1 (by decide))
  · exact ((((try_decode_frame_characterization .xmodem [SOH, 1, 254]).2 SOH [1, 254]
      rfl).2 128 (by decide)).1 (by decide))
  · have h := ((((try_decode_frame_characterization .xmodem
          (SOH :: 1 :: 254 :: (List.replicate 128 0 ++ [0]))).2 SOH
          (1 :: 254 :: (List.replicate 128 0 ++ [0])) rfl).2 128 (by decide)).2
          (by decide)).1 (by decide)
    rw [h]
    decide

/-! ## Terminal states are absorbing -/

/-- A terminal session ignores an inbound byte. -/
theorem processByte_terminal (s : Session) (b : Nat) (h : s.state.isTerminal = true) :
    processByte s b = (s, []) := by
  unfold processByte
  rw [if_pos h]

/-- A terminal session ignores inbound data entirely: no state change, no
events. -/
theorem process_data_terminal (ds : List Nat) (s : Session)
    (h : s.state.isTerminal = true) :
    transfer_process_data s ds = (s, []) := by
  induction ds with
  | nil => rfl
  | cons b bs ih =>
    unfold transfer_process_data
    rw [processByte_terminal s b h]
    simp [ih]

/-- No API operation mutates a terminal session or makes it emit events. -/
theorem applyOp_terminal (s : Session) (op : Op) (h : s.state.isTerminal = true) :
    applyOp s op = (s, []) := by
  have hidle : ¬ s.state = .idle := by
    intro he
    rw [he] at h
    simp [TransferState.isTerminal] at h
  cases op with
  | opStartSend name data =>
    simp [applyOp, transfer_start_send, hidle]
  | opStartReceive =>
    simp [applyOp, transfer_start_receive, hidle]
  | opProcess data =>
    exact process_data_terminal data s h
  | opCancel =>
    simp [applyOp, transfer_cancel, h]

/-! ## C4: retry exhaustion on the send path -/

/-- C4: a send session in transferring whose retry count has reached the
ceiling of 10 moves to failed on the next NAK, emitting exactly one Failed
event, and — terminal states being absorbing — never emits another event
(in particular never a second Failed) afterwards. -/
theorem send_retry_exhaustion_fails_once (s : Session)
    (hdir : s.direction = .send) (hstate : s.state = .transferring)
    (hretry : retryCeiling ≤ s.retryCount) :
    (transfer_process_data s [NAK]).1.state = .failed ∧
    (transfer_process_data s [NAK]).2 = [.Failed "retry limit exceeded"] ∧
    ∀ ds, transfer_process_data (transfer_process_data s [NAK]).1 ds =
      ((transfer_process_data s [NAK]).1, []) := by
  have hcond : s.retryCount + 1 > retryCeiling := by
    simp only [retryCeiling] at hretry ⊢
    omega
  have hb : processByte s NAK =
      ({ s with state := .failed, retryCount := s.retryCount + 1, lastCan := false },
       [.Failed "retry limit exceeded"]) := by
    unfold processByte
    rw [if_neg (by rw [hstate]; decide), if_neg (by rw [hstate]; decide), hdir]
    unfold processSendByte
    simp only [hstate]
    simp [NAK, CAN, ACK, hcond, hdir]
  have hpd : transfer_process_data s [NAK] =
      ({ s with state := .failed, retryCount := s.retryCount + 1, lastCan := false },
       [.Failed "retry limit exceeded"]) := by
    unfold transfer_process_data
    rw [hb]
    rfl
  rw [hpd]
  refine ⟨rfl, rfl, fun ds => process_data_terminal ds _ rfl⟩

/-- A concrete send session sitting at the retry ceiling, used by the C4
witness. -/
def c4session : Session :=
  { protocol := .xmodemCrc
    direction := .send
    state := .transferring
    blockNumber := 1
    retryCount := 10
    errorCount := 10
    remaining := [1, 2]
    fileName := "f"
    totalBytes := 2
    bytesTransferred := 0
    receiveSink := []
    inbound := []
    lastCan := false }

/-- Witness for C4: the concrete session at the retry ceiling fails with one
Failed event on the next NAK and ignores everything afterwards. -/
theorem send_retry_exhaustion_fails_once_witness :
    (transfer_process_data c4session [NAK]).1.state = .failed ∧
    (transfer_process_data c4session [NAK]).2 = [.Failed "retry limit exceeded"] ∧
    ∀ ds, transfer_process_data (transfer_process_data c4session [NAK]).1 ds =
      ((transfer_process_data c4session [NAK]).1, []) :=
  send_retry_exhaustion_fails_once c4session rfl rfl (by decide)

/-! ## C5: peer cancellation via a CAN pair -/

/-- Process-data on the empty list is the identity. -/
theorem process_data_nil (s : Session) : transfer_process_data s [] = (s, []) := rfl

/-- One-step unfolding of process-data. -/
theorem process_data_cons (s : Session) (b : Nat) (bs : List Nat) :
    transfer_process_data s (b :: bs) =
      ((transfer_process_data (processByte s b).1 bs).1,
       (processByte s b).2 ++ (transfer_process_data (processByte s b).1 bs).2) := rfl

/-- An active state is not terminal. -/
theorem isActive_not_terminal (st : TransferState) (h : st.isActive = true) :
    st.isTerminal = false := by
  cases st <;> simp_all [TransferState.isActive, TransferState.isTerminal]

/-- An active state is not idle. -/
theorem isActive_ne_idle (st : TransferState) (h : st.isActive = true) :
    ¬ st = .idle := by
  cases st <;> simp_all [TransferState.isActive]

/-- A CAN byte reaching an active session that is sending, or receiving at a
frame boundary, either arms the cancel flag or — if armed — cancels. -/
theorem processByte_can (s : Session) (hact : s.state.isActive = true)
    (hok : s.direction = .send ∨ s.inbound = []) :
    processByte s CAN =
      if s.lastCan then
        ({ s with state := .cancelled, lastCan := false, remaining := [], inbound := [] },
         [.Cancelled])
      else ({ s with lastCan := true }, []) := by
  unfold processByte
  rw [if_neg (by rw [isActive_not_terminal _ hact]; decide),
    if_neg (isActive_ne_idle _ hact)]
  cases hd : s.direction with
  | send =>
    unfold processSendByte
    rw [if_pos rfl]
    simp [hd]
  | receive =>
    have hinb : s.inbound = [] := by
      rcases hok with h | h
      · rw [hd] at h
        cases h
      · exact h
    unfold processRecvByte
    rw [if_pos (by rw [hinb]; rfl), if_pos rfl]
    simp [hd]

/-- C5 (amended): delivering two consecutive CAN bytes to an active session
that is sending, or receiving at a frame boundary (empty inbound frame
accumulator), cancels it immediately — bypassing retry logic — with exactly
one Cancelled event, after which no operation changes the session or emits
events. A receive session mid-frame instead treats the bytes as frame
content. -/
theorem can_can_cancels (s : Session)
    (hact : s.state.isActive = true)
    (hok : s.direction = .send ∨ s.inbound = []) :
    (transfer_process_data s [CAN, CAN]).1.state = .cancelled ∧
    (transfer_process_data s [CAN, CAN]).2 = [.Cancelled] ∧
    ∀ ds, transfer_process_data (transfer_process_data s [CAN, CAN]).1 ds =
      ((transfer_process_data s [CAN, CAN]).1, []) := by
  have hpd : transfer_process_data s [CAN, CAN] =
      ({ s with state := .cancelled, lastCan := false, remaining := [], inbound := [] },
       [.Cancelled]) := by
    by_cases hl : s.lastCan
    · have hstep := processByte_can s hact hok
      rw [if_pos hl] at hstep
      rw [process_data_cons, hstep]
      simp [process_data_terminal [CAN]
        { s with state := .cancelled, lastCan := false, remaining := [], inbound := [] } rfl]
    · have hstep := processByte_can s hact hok
      rw [if_neg hl] at hstep
      have hstep2 := processByte_can { s with lastCan := true } hact hok
      rw [if_pos rfl] at hstep2
      rw [process_data_cons, hstep, process_data_cons, hstep2]
      simp [process_data_nil]
  rw [hpd]
  exact ⟨rfl, rfl, fun ds => process_data_terminal ds _ rfl⟩

/-- A receive session holding the first byte of a frame, used by the C5
counterexample: built through the public API. -/
def c5midframe : Session :=
  (transfer_process_data (transfer_start_receive (transfer_create .xmodemCrc)).1 [SOH]).1

/-- Counterexample to C5 as stated: a receive session in an active state
but mid-frame (its accumulator holds the SOH of a partial frame) does not
cancel on two consecutive CAN bytes — they are consumed as frame content. -/
theorem can_can_midframe_not_cancelled :
    c5midframe.state.isActive = true ∧
    c5midframe.inbound = [SOH] ∧
    ¬ (transfer_process_data c5midframe [CAN, CAN]).1.state = .cancelled := by decide

/-- A freshly started receive session (frame boundary), used by the C5
witness. -/
def c5boundary : Session :=
  (transfer_start_receive (transfer_create .xmodem)).1

/-- Witness for the amended C5: the concrete just-started receive session is
cancelled by a CAN pair, emits exactly one Cancelled event and is inert
afterwards. -/
theorem can_can_cancels_witness :
    (transfer_process_data c5boundary [CAN, CAN]).1.state = .cancelled ∧
    (transfer_process_data c5boundary [CAN, CAN]).2 = [.Cancelled] ∧
    ∀ ds, transfer_process_data (transfer_process_data c5boundary [CAN, CAN]).1 ds =
      ((transfer_process_data c5boundary [CAN, CAN]).1, []) :=
  can_can_cancels c5boundary (by decide) (Or.inr (by decide))

/-! ## C10: the protocol binding is immutable -/

/-- A single inbound byte never changes the protocol a session is bound to. -/
theorem processByte_protocol (s : Session) (b : Nat) :
    (processByte s b).1.protocol = s.protocol := by
  simp only [processByte, processSendByte, processRecvByte]
  repeat' split
  all_goals rfl

/-- Processing inbound data never changes the protocol. -/
theorem process_data_protocol : ∀ (ds : List Nat) (s : Session),
    (transfer_process_data s ds).1.protocol = s.protocol := by
  intro ds
  induction ds with
  | nil => intro s; rfl
  | cons b bs ih =>
    intro s
    rw [process_data_cons]
    rw [ih, processByte_protocol]

/-- No API operation changes the protocol. -/
theorem applyOp_protocol (s : Session) (op : Op) :
    (applyOp s op).1.protocol = s.protocol := by
  cases op with
  | opStartSend name data =>
    show (transfer_start_send s name data).1.protocol = s.protocol
    unfold transfer_start_send
    split <;> rfl
  | opStartReceive =>
    show (transfer_start_receive s).1.protocol = s.protocol
    unfold transfer_start_receive
    split <;> rfl
  | opProcess data => exact process_data_protocol data s
  | opCancel =>
    show (transfer_cancel s).1.protocol = s.protocol
    unfold transfer_cancel
    split <;> rfl

/-- No sequence of API operations changes the protocol. -/
theorem runOps_protocol : ∀ (ops : List Op) (s : Session),
    (runOps s ops).1.protocol = s.protocol := by
  intro ops
  induction ops with
  | nil => intro s; rfl
  | cons op rest ih =>
    intro s
    unfold runOps
    rw [ih, applyOp_protocol]

/-- C10: the protocol bound at creation is one of exactly XMODEM-checksum,
XMODEM-CRC, XMODEM-1K and YMODEM; creation binds exactly the requested
protocol, and no operation on a session ever changes it. -/
theorem protocol_bound_and_immutable :
    (∀ p : TransferProtocol,
      p = .xmodem ∨ p = .xmodemCrc ∨ p = .xmodem1k ∨ p = .ymodem) ∧
    (∀ p : TransferProtocol, (transfer_create p).protocol = p) ∧
    (∀ (s : Session) (ops : List Op), (runOps s ops).1.protocol = s.protocol) := by
  refine ⟨?_, fun p => rfl, fun s ops => runOps_protocol ops s⟩
  intro p
  cases p
  · exact Or.inl rfl
  · exact Or.inr (Or.inl rfl)
  · exact Or.inr (Or.inr (Or.inl rfl))
  · exact Or.inr (Or.inr (Or.inr rfl))

/-! ## C6: at most one terminal event per session lifetime -/

/-- Terminal-event counting is additive over concatenation. -/
theorem countTerminalEvents_append (xs ys : List TransferEvent) :
    countTerminalEvents (xs ++ ys) = countTerminalEvents xs + countTerminalEvents ys := by
  unfold countTerminalEvents
  rw [List.filter_append, List.length_append]

/-- A non-terminal session emits, on one byte, a terminal event exactly when
that byte drives it into a terminal state — and then exactly one. -/
theorem processByte_terminal_count (s : Session) (b : Nat)
    (h : s.state.isTerminal = false) :
    countTerminalEvents (processByte s b).2 =
      (if (processByte s b).1.state.isTerminal = true then 1 else 0) := by
  simp only [processByte, processSendByte, processRecvByte, h]
  repeat' split
  all_goals
    simp_all [countTerminalEvents, isTerminalEvent, TransferState.isTerminal]

/-- Over one process-data call from a non-terminal state: at most one
terminal event, and exactly one iff a terminal state was reached. -/
theorem process_data_terminal_count : ∀ (ds : List Nat) (s : Session),
    s.state.isTerminal = false →
    countTerminalEvents (transfer_process_data s ds).2 =
      (if (transfer_process_data s ds).1.state.isTerminal = true then 1 else 0) := by
  intro ds
  induction ds with
  | nil =>
    intro s h
    rw [process_data_nil]
    simp [countTerminalEvents, h]
  | cons b bs ih =>
    intro s h
    rw [process_data_cons, countTerminalEvents_append]
    rcases hterm : (processByte s b).1.state.isTerminal with _ | _
    · have hb := processByte_terminal_count s b h
      rw [hterm] at hb
      simp only [Bool.false_eq_true, if_false] at hb
      rw [hb, ih (processByte s b).1 hterm]
      simp
    · have hb := processByte_terminal_count s b h
      rw [hterm] at hb
      simp at hb
      rw [process_data_terminal bs _ hterm, hb]
      simp [hterm, countTerminalEvents]

/-- Over one API operation from a non-terminal state: at most one terminal
event, and exactly one iff a terminal state was reached. -/
theorem applyOp_terminal_count (s : Session) (op : Op)
    (h : s.state.isTerminal = false) :
    countTerminalEvents (applyOp s op).2 =
      (if (applyOp s op).1.state.isTerminal = true then 1 else 0) := by
  cases op with
  | opStartSend name data =>
    show countTerminalEvents (transfer_start_send s name data).2 =
      (if (transfer_start_send s name data).1.state.isTerminal = true then 1 else 0)
    unfold transfer_start_send
    split
    · simp [countTerminalEvents, isTerminalEvent, TransferState.isTerminal]
    · simp [countTerminalEvents, h]
  | opStartReceive =>
    show countTerminalEvents (transfer_start_receive s).2 =
      (if (transfer_start_receive s).1.state.isTerminal = true then 1 else 0)
    unfold transfer_start_receive
    split
    · simp [countTerminalEvents, isTerminalEvent, TransferState.isTerminal]
    · simp [countTerminalEvents, h]
  | opProcess data => exact process_data_terminal_count data s h
  | opCancel =>
    show countTerminalEvents (transfer_cancel s).2 =
      (if (transfer_cancel s).1.state.isTerminal = true then 1 else 0)
    unfold transfer_cancel
    rw [if_neg (by rw [h]; decide)]
    split <;>
      simp [countTerminalEvents, isTerminalEvent, TransferState.isTerminal]

/-- Over any operation sequence: at most one terminal event in total, and
none at all when starting from a terminal state. -/
theorem runOps_terminal_count : ∀ (ops : List Op) (s : Session),
    countTerminalEvents (runOps s ops).2 ≤ 1 ∧
    (s.state.isTerminal = true → countTerminalEvents (runOps s ops).2 = 0) := by
  intro ops
  induction ops with
  | nil =>
    intro s
    exact ⟨by simp [runOps, countTerminalEvents], fun _ => by simp [runOps, countTerminalEvents]⟩
  | cons op rest ih =>
    intro s
    unfold runOps
    rcases hs : s.state.isTerminal with _ | _
    · have hop := applyOp_terminal_count s op hs
      rcases hterm : (applyOp s op).1.state.isTerminal with _ | _
      · rw [hterm] at hop
        simp only [Bool.false_eq_true, if_false] at hop
        constructor
        · rw [countTerminalEvents_append, hop]
          simpa using (ih (applyOp s op).1).1
        · intro habs
          simp [hs] at habs
      · rw [hterm] at hop
        simp at hop
        constructor
        · rw [countTerminalEvents_append, hop, (ih (applyOp s op).1).2 hterm]
        · intro habs
          simp [hs] at habs
    · rw [applyOp_terminal s op hs]
      constructor
      · simpa [countTerminalEvents] using (ih s).1
      · intro _
        simpa [countTerminalEvents] using (ih s).2 hs

/-- C6: over every sequence of operations on a freshly created session, at
most one terminal event (Completed, Failed or Cancelled) is emitted, and
once a session is in a terminal state no operation mutates it (or makes it
emit anything) again. -/
theorem at_most_one_terminal_event (p : TransferProtocol) (ops : List Op) :
    countTerminalEvents (runOps (transfer_create p) ops).2 ≤ 1 ∧
    (∀ (s : Session) (op : Op), s.state.isTerminal = true → applyOp s op = (s, [])) :=
  ⟨(runOps_terminal_count ops (transfer_create p)).1,
   fun s op h => applyOp_terminal s op h⟩

/-- A concrete completed session, used by the C6 witness. -/
def c6terminal : Session :=
  { protocol := .xmodem
    direction := .receive
    state := .completed
    blockNumber := 3
    retryCount := 0
    errorCount := 1
    remaining := []
    fileName := "g"
    totalBytes := 0
    bytesTransferred := 256
    receiveSink := List.replicate 256 7
    inbound := []
    lastCan := false }

/-- Witness for C6: a concrete run — create, start, cancel, then more input —
emits at most one terminal event, and a concrete completed session is inert
under cancel. -/
theorem at_most_one_terminal_event_witness :
    (countTerminalEvents
      (runOps (transfer_create .xmodemCrc)
        [.opStartSend "f" [1, 2, 3], .opCancel, .opProcess [ACK, NAK]]).2 ≤ 1) ∧
    applyOp c6terminal .opCancel = (c6terminal, []) :=
  ⟨(at_most_one_terminal_event .xmodemCrc
      [.opStartSend "f" [1, 2, 3], .opCancel, .opProcess [ACK, NAK]]).1,
   (at_most_one_terminal_event .xmodemCrc []).2 c6terminal .opCancel rfl⟩

/-! ## C8: whole-file XMODEM-1K send run -/

/-- Process-data on a single byte is one byte step. -/
theorem process_data_single (s : Session) (b : Nat) :
    transfer_process_data s [b] = ((processByte s b).1, (processByte s b).2) := by
  rw [process_data_cons, process_data_nil]
  simp

/-- The handshake byte is never CAN. -/
theorem handshakeByte_ne_can (p : TransferProtocol) : ¬ handshakeByte p = CAN := by
  cases p <;> decide

/-- A send session in starting with payload left, on its handshake byte,
moves to transferring and emits the first block. -/
theorem processSend_handshake_more (s : Session)
    (hdir : s.direction = .send) (hstate : s.state = .starting)
    (hne : ¬ s.remaining.isEmpty = true) :
    processByte s (handshakeByte s.protocol) =
      ({ s with state := .transferring, lastCan := false },
       [.SendData ((encode_data_block s.protocol s.blockNumber
          (s.remaining.take (blockSize s.protocol))).getD [])]) := by
  unfold processByte
  rw [if_neg (by rw [hstate]; decide), if_neg (by rw [hstate]; decide), hdir]
  unfold processSendByte
  rw [if_neg (handshakeByte_ne_can s.protocol)]
  simp only [hstate]
  rw [if_true, if_neg hne]
  simp [currentBlockBytes, hdir]

/-- A send session in transferring, ACKed with payload beyond the current
block, advances and emits the next block. -/
theorem processSend_ack_more (s : Session)
    (hdir : s.direction = .send) (hstate : s.state = .transferring)
    (hrest : ¬ (s.remaining.drop (blockSize s.protocol)).isEmpty = true) :
    processByte s ACK =
      ({ s with remaining := s.remaining.drop (blockSize s.protocol),
                blockNumber := s.blockNumber + 1, retryCount := 0,
                bytesTransferred :=
                  s.bytesTransferred + min (blockSize s.protocol) s.remaining.length,
                lastCan := false },
       [.SendData ((encode_data_block s.protocol (s.blockNumber + 1)
          ((s.remaining.drop (blockSize s.protocol)).take (blockSize s.protocol))).getD [])]) := by
  unfold processByte
  rw [if_neg (by rw [hstate]; decide), if_neg (by rw [hstate]; decide), hdir]
  unfold processSendByte
  rw [if_neg (by decide)]
  simp only [hstate]
  rw [if_true, if_neg hrest]
  simp [currentBlockBytes, hdir]

/-- A send session in transferring, ACKed on its last block, moves to
completing and emits the EOT. -/
theorem processSend_ack_done (s : Session)
    (hdir : s.direction = .send) (hstate : s.state = .transferring)
    (hrest : (s.remaining.drop (blockSize s.protocol)).isEmpty = true) :
    processByte s ACK =
      ({ s with remaining := s.remaining.drop (blockSize s.protocol),
                blockNumber := s.blockNumber + 1, retryCount := 0,
                bytesTransferred :=
                  s.bytesTransferred + min (blockSize s.protocol) s.remaining.length,
                lastCan := false, state := .completing },
       [.SendData [EOT]]) := by
  unfold processByte
  rw [if_neg (by rw [hstate]; decide), if_neg (by rw [hstate]; decide), hdir]
  unfold processSendByte
  rw [if_neg (by decide)]
  simp only [hstate]
  rw [if_true, if_pos hrest]
  simp [hdir]

/-- A send session in completing, ACKed, completes. -/
theorem processSend_ack_completing (s : Session)
    (hdir : s.direction = .send) (hstate : s.state = .completing) :
    processByte s ACK = ({ s with state := .completed, lastCan := false }, [.Completed]) := by
  unfold processByte
  rw [if_neg (by rw [hstate]; decide), if_neg (by rw [hstate]; decide), hdir]
  unfold processSendByte
  rw [if_neg (by decide)]
  simp only [hstate]
  rw [if_true]
  simp [hdir]

/-- One-step unfolding of the ACK loop. -/
theorem ackLoop_succ (fuel : Nat) (s : Session) :
    ackLoop (fuel + 1) s =
      if s.state.isTerminal = true then (s, [])
      else
        ((ackLoop fuel (transfer_process_data s [ACK]).1).1,
         (transfer_process_data s [ACK]).2 ++
           (ackLoop fuel (transfer_process_data s [ACK]).1).2) := rfl

/-- One-step unfolding of the ACK loop through a known process-data step. -/
theorem ackLoop_succ_step (fuel : Nat) (s s' : Session) (ev : List TransferEvent)
    (hnt : ¬ s.state.isTerminal = true)
    (hstep : transfer_process_data s [ACK] = (s', ev)) :
    ackLoop (fuel + 1) s = ((ackLoop fuel s').1, ev ++ (ackLoop fuel s').2) := by
  rw [ackLoop_succ, if_neg hnt, hstep]

/-- The ACK loop does nothing from a terminal state. -/
theorem ackLoop_terminal_eq (fuel : Nat) (s : Session) (h : s.state.isTerminal = true) :
    ackLoop fuel s = (s, []) := by
  cases fuel with
  | zero => rfl
  | succ f => rw [ackLoop_succ, if_pos h]

/-- `sendBlocks` on an empty source is empty. -/
theorem sendBlocks_nil (p : TransferProtocol) (n : Nat) : sendBlocks p n [] = [] := by
  unfold sendBlocks
  rfl

/-- `sendBlocks` on a nonempty source peels one encoded block. -/
theorem sendBlocks_cons (p : TransferProtocol) (n : Nat) (l : List Nat) (h : ¬ l = []) :
    sendBlocks p n l =
      (encode_data_block p n (l.take (blockSize p))).getD [] ::
        sendBlocks p (n + 1) (l.drop (blockSize p)) := by
  rw [sendBlocks]
  rw [dif_neg h]

/-- Feeding ACKs to a send session in transferring drains the remaining
payload block by block, then the EOT is acknowledged and the session
completes: the emitted events are exactly the remaining encoded blocks, the
EOT request, and one Completed. -/
theorem ackLoop_send_spec : ∀ (fuel : Nat) (s : Session),
    s.direction = .send → s.state = .transferring → ¬ s.remaining = [] →
    s.remaining.length + 2 ≤ fuel →
    (ackLoop fuel s).2 =
      (sendBlocks s.protocol (s.blockNumber + 1)
        (s.remaining.drop (blockSize s.protocol))).map .SendData ++
        [.SendData [EOT], .Completed] ∧
    (ackLoop fuel s).1.state = .completed := by
  intro fuel
  induction fuel with
  | zero =>
    intro s _ _ hne hfuel
    exact absurd hfuel (by simp)
  | succ f ih =>
    intro s hdir hstate hne hfuel
    have hnt : ¬ s.state.isTerminal = true := by
      rw [hstate]
      decide
    by_cases hrest : (s.remaining.drop (blockSize s.protocol)).isEmpty = true
    · -- last block acknowledged: completing, then one more ACK completes
      have hdrop : s.remaining.drop (blockSize s.protocol) = [] :=
        List.isEmpty_iff.mp hrest
      have hstep : transfer_process_data s [ACK] =
          ({ s with remaining := s.remaining.drop (blockSize s.protocol),
                    blockNumber := s.blockNumber + 1, retryCount := 0,
                    bytesTransferred :=
                      s.bytesTransferred + min (blockSize s.protocol) s.remaining.length,
                    lastCan := false, state := .completing },
           [.SendData [EOT]]) := by
        rw [process_data_single, processSend_ack_done s hdir hstate hrest]
      rw [ackLoop_succ_step f s _ _ hnt hstep]
      have hf1 : 1 ≤ f := by
        have : 1 ≤ s.remaining.length := List.length_pos.mpr hne
        omega
      obtain ⟨f', rfl⟩ : ∃ f', f = f' + 1 := ⟨f - 1, by omega⟩
      have hstep2 : transfer_process_data
          ({ s with remaining := s.remaining.drop (blockSize s.protocol),
                    blockNumber := s.blockNumber + 1, retryCount := 0,
                    bytesTransferred :=
                      s.bytesTransferred + min (blockSize s.protocol) s.remaining.length,
                    lastCan := false, state := .completing } : Session) [ACK] =
          ({ s with remaining := s.remaining.drop (blockSize s.protocol),
                    blockNumber := s.blockNumber + 1, retryCount := 0,
                    bytesTransferred :=
                      s.bytesTransferred + min (blockSize s.protocol) s.remaining.length,
                    lastCan := false, state := .completed },
           [.Completed]) := by
        rw [process_data_single, processSend_ack_completing
          ({ s with remaining := s.remaining.drop (blockSize s.protocol),
                    blockNumber := s.blockNumber + 1, retryCount := 0,
                    bytesTransferred :=
                      s.bytesTransferred + min (blockSize s.protocol) s.remaining.length,
                    lastCan := false, state := .completing } : Session) hdir rfl]
      rw [ackLoop_succ_step f'
        ({ s with remaining := s.remaining.drop (blockSize s.protocol),
                  blockNumber := s.blockNumber + 1, retryCount := 0,
                  bytesTransferred :=
                    s.bytesTransferred + min (blockSize s.protocol) s.remaining.length,
                  lastCan := false, state := .completing } : Session) _ _
        (by simp [TransferState.isTerminal]) hstep2]
      rw [ackLoop_terminal_eq f'
        ({ s with remaining := s.remaining.drop (blockSize s.protocol),
                  blockNumber := s.blockNumber + 1, retryCount := 0,
                  bytesTransferred :=
                    s.bytesTransferred + min (blockSize s.protocol) s.remaining.length,
                  lastCan := false, state := .completed } : Session) rfl]
      constructor
      · rw [hdrop, sendBlocks_nil]
        simp
      · rfl
    · -- more blocks to go: emit the next one and recurse
      have hdrop : ¬ s.remaining.drop (blockSize s.protocol) = [] := by
        simpa [List.isEmpty_iff] using hrest
      have hstep : transfer_process_data s [ACK] =
          ({ s with remaining := s.remaining.drop (blockSize s.protocol),
                    blockNumber := s.blockNumber + 1, retryCount := 0,
                    bytesTransferred :=
                      s.bytesTransferred + min (blockSize s.protocol) s.remaining.length,
                    lastCan := false },
           [.SendData ((encode_data_block s.protocol (s.blockNumber + 1)
              ((s.remaining.drop (blockSize s.protocol)).take (blockSize s.protocol))).getD [])]) := by
        rw [process_data_single, processSend_ack_more s hdir hstate hrest]
      rw [ackLoop_succ_step f s _ _ hnt hstep]
      have hlen : (s.remaining.drop (blockSize s.protocol)).length + 2 ≤ f := by
        have h1 : 1 ≤ blockSize s.protocol := blockSize_pos s.protocol
        have h2 : (s.remaining.drop (blockSize s.protocol)).length =
            s.remaining.length - blockSize s.protocol := List.length_drop _ _
        have h3 : blockSize s.protocol < s.remaining.length := by
          by_contra hc
          exact hdrop (List.drop_eq_nil_of_le (by omega))
        omega
      have hrec := ih
        { s with remaining := s.remaining.drop (blockSize s.protocol),
                 blockNumber := s.blockNumber + 1, retryCount := 0,
                 bytesTransferred :=
                   s.bytesTransferred + min (blockSize s.protocol) s.remaining.length,
                 lastCan := false } hdir hstate hdrop hlen
      constructor
      · show _ ++ (ackLoop f _).2 = _
        rw [hrec.1]
        rw [sendBlocks_cons _ _ _ hdrop]
        simp
      · exact hrec.2

/-- The number of encoded blocks is the number of payload bytes divided by
the block size, rounded up. -/
theorem sendBlocks_length (p : TransferProtocol) : ∀ (k : Nat) (l : List Nat),
    l.length ≤ k → ∀ n,
    (sendBlocks p n l).length = (l.length + blockSize p - 1) / blockSize p := by
  intro k
  induction k with
  | zero =>
    intro l hl n
    have hnil : l = [] := List.length_eq_zero.mp (by omega)
    subst hnil
    rw [sendBlocks_nil]
    cases p <;> rfl
  | succ k ih =>
    intro l hl n
    by_cases h : l = []
    · subst h
      rw [sendBlocks_nil]
      cases p <;> rfl
    · rw [sendBlocks_cons p n l h]
      have hpos : 1 ≤ l.length := List.length_pos.mpr h
      have hbs : 1 ≤ blockSize p := blockSize_pos p
      have hdl : (l.drop (blockSize p)).length = l.length - blockSize p :=
        List.length_drop _ _
      rw [List.length_cons, ih (l.drop (blockSize p)) (by omega) (n + 1), hdl]
      cases p <;> simp only [blockSize] <;> omega

/-- Concatenating the payloads a receiver decodes from the emitted blocks
and trimming at the source length recovers the source exactly. -/
theorem sendBlocks_reconstruct (p : TransferProtocol) : ∀ (k : Nat) (l : List Nat),
    l.length ≤ k → ∀ n,
    (((sendBlocks p n l).map (decodedPayloadOf p)).flatten).take l.length = l := by
  intro k
  induction k with
  | zero =>
    intro l hl n
    have hnil : l = [] := List.length_eq_zero.mp (by omega)
    subst hnil
    simp [sendBlocks_nil]
  | succ k ih =>
    intro l hl n
    by_cases h : l = []
    · subst h
      simp [sendBlocks_nil]
    · rw [sendBlocks_cons p n l h]
      have hbs : 1 ≤ blockSize p := blockSize_pos p
      have hpos : 1 ≤ l.length := List.length_pos.mpr h
      have htk : (l.take (blockSize p)).length ≤ blockSize p := by
        simp [List.length_take]
      obtain ⟨bytes, henc, hdec⟩ := encode_decode_roundtrip p n (l.take (blockSize p)) htk
      have hdp : decodedPayloadOf p
          ((encode_data_block p n (l.take (blockSize p))).getD []) =
          l.take (blockSize p) ++
            List.replicate (blockSize p - (l.take (blockSize p)).length) PAD := by
        rw [henc]
        unfold decodedPayloadOf
        simp only [Option.getD_some]
        rw [hdec]
      rw [List.map_cons, List.flatten_cons, hdp]
      by_cases hle : l.length ≤ blockSize p
      · have htake_all : l.take (blockSize p) = l := List.take_of_length_le hle
        have hdrop_nil : l.drop (blockSize p) = [] := List.drop_eq_nil_of_le hle
        rw [htake_all, hdrop_nil, sendBlocks_nil]
        simp only [List.map_nil, List.flatten_nil, List.append_nil]
        rw [List.take_append_eq_append_take, List.take_length, Nat.sub_self,
          List.take_zero, List.append_nil]
      · have hgt : blockSize p < l.length := Nat.not_le.mp hle
        have htklen : (l.take (blockSize p)).length = blockSize p := by
          simp [List.length_take]
          omega
        have hpad : List.replicate (blockSize p - (l.take (blockSize p)).length) PAD =
            ([] : List Nat) := by
          rw [htklen, Nat.sub_self]
          rfl
        rw [hpad, List.append_nil]
        rw [List.take_append_eq_append_take, htklen]
        have h1 : l.length - blockSize p = (l.drop (blockSize p)).length :=
          (List.length_drop _ _).symm
        have h2 : (l.take (blockSize p)).take l.length = l.take (blockSize p) := by
          apply List.take_of_length_le
          rw [htklen]
          omega
        rw [h2, h1, ih (l.drop (blockSize p)) (by
          have := List.length_drop (blockSize p) l
          omega) (n + 1)]
        exact List.take_append_drop _ _

/-- `sendDataPayloads` distributes over concatenation. -/
theorem sendDataPayloads_append (xs ys : List TransferEvent) :
    sendDataPayloads (xs ++ ys) = sendDataPayloads xs ++ sendDataPayloads ys := by
  simp [sendDataPayloads]

/-- `sendDataPayloads` recovers the list wrapped into SendData events. -/
theorem sendDataPayloads_map_sendData (ls : List (List Nat)) :
    sendDataPayloads (ls.map .SendData) = ls := by
  induction ls with
  | nil => rfl
  | cons x xs ih =>
    simp only [List.map_cons, sendDataPayloads, List.filterMap_cons] at ih ⊢
    rw [ih]

/-- The session a happy-path send run passes through, parameterized by its
state: used to state the intermediate equations of the C8 proof. -/
def sendSession (st : TransferState) (payload : List Nat) : Session :=
  { protocol := .xmodem1k
    direction := .send
    state := st
    blockNumber := 1
    retryCount := 0
    errorCount := 0
    remaining := payload
    fileName := "file"
    totalBytes := payload.length
    bytesTransferred := 0
    receiveSink := []
    inbound := []
    lastCan := false }

set_option maxRecDepth 10000 in
/-- C8: sending an N-byte file under XMODEM-1K with every block acknowledged
emits exactly ceil(N/1024) data blocks followed by exactly one EOT, the
session completes, and concatenating the payloads the receiver decodes from
those blocks — stripping the 0x1A padding beyond N — reproduces the N source
bytes exactly. -/
theorem xmodem1k_send_whole_file (payload : List Nat) :
    sendDataPayloads (runSendXmodem1k payload).2 =
      sendBlocks .xmodem1k 1 payload ++ [[EOT]] ∧
    (sendBlocks .xmodem1k 1 payload).length = (payload.length + 1023) / 1024 ∧
    (((sendBlocks .xmodem1k 1 payload).map
      (decodedPayloadOf .xmodem1k)).flatten).take payload.length = payload ∧
    (runSendXmodem1k payload).1.state = .completed := by
  have hcount :
      (sendBlocks .xmodem1k 1 payload).length = (payload.length + 1023) / 1024 := by
    have := sendBlocks_length .xmodem1k payload.length payload (Nat.le_refl _) 1
    simpa [blockSize] using this
  have hrec :
      (((sendBlocks .xmodem1k 1 payload).map
        (decodedPayloadOf .xmodem1k)).flatten).take payload.length = payload :=
    sendBlocks_reconstruct .xmodem1k payload.length payload (Nat.le_refl _) 1
  by_cases hpl : payload = []
  · subst hpl
    refine ⟨?_, hcount, hrec, by decide⟩
    rw [sendBlocks_nil]
    decide
  · have h0a : (transfer_start_send (transfer_create .xmodem1k) "file" payload).1 =
        sendSession .starting payload := rfl
    have h0b : (transfer_start_send (transfer_create .xmodem1k) "file" payload).2 =
        [.Started "file" payload.length] := rfl
    have hne : ¬ (sendSession .starting payload).remaining.isEmpty = true := by
      simpa [sendSession, List.isEmpty_iff] using hpl
    have h1 : transfer_process_data (sendSession .starting payload) [CC] =
        (sendSession .transferring payload,
         [.SendData ((encode_data_block .xmodem1k 1 (payload.take 1024)).getD [])]) := by
      rw [process_data_single]
      rw [show (CC : Nat) = handshakeByte (sendSession .starting payload).protocol from rfl]
      rw [processSend_handshake_more (sendSession .starting payload) rfl rfl hne]
      rfl
    have h1a : (transfer_process_data (sendSession .starting payload) [CC]).1 =
        sendSession .transferring payload := by
      rw [h1]
    have h1b : (transfer_process_data (sendSession .starting payload) [CC]).2 =
        [.SendData ((encode_data_block .xmodem1k 1 (payload.take 1024)).getD [])] := by
      rw [h1]
    have hloop := ackLoop_send_spec (payload.length + 2)
      (sendSession .transferring payload) rfl rfl hpl (Nat.le_refl _)
    have hstate : (runSendXmodem1k payload).1.state = .completed := by
      unfold runSendXmodem1k
      rw [h0a, h1a]
      exact hloop.2
    refine ⟨?_, hcount, hrec, hstate⟩
    have hevs : (runSendXmodem1k payload).2 =
        [.Started "file" payload.length] ++
          [.SendData ((encode_data_block .xmodem1k 1 (payload.take 1024)).getD [])] ++
          ((sendBlocks .xmodem1k 2 (payload.drop 1024)).map .SendData ++
            [.SendData [EOT], .Completed]) := by
      unfold runSendXmodem1k
      rw [h0a, h0b, h1a, h1b]
      rw [hloop.1]
      simp [sendSession, blockSize]
    rw [hevs]
    rw [sendDataPayloads_append, sendDataPayloads_append]
    rw [sendDataPayloads_append, sendDataPayloads_map_sendData]
    rw [sendBlocks_cons .xmodem1k 1 payload hpl]
    simp [sendDataPayloads, blockSize]

/-! ## C7: duplicate blocks are re-ACKed without re-appending -/

/-- One-step unfolding of process-data through a known byte step. -/
theorem process_data_cons_step (s s' : Session) (ev : List TransferEvent)
    (b : Nat) (bs : List Nat) (hstep : processByte s b = (s', ev)) :
    transfer_process_data s (b :: bs) =
      ((transfer_process_data s' bs).1, ev ++ (transfer_process_data s' bs).2) := by
  rw [process_data_cons, hstep]

/-- Process-data composes over concatenation of the inbound chunks. -/
theorem process_data_append (xs : List Nat) : ∀ (s : Session) (ys : List Nat),
    transfer_process_data s (xs ++ ys) =
      ((transfer_process_data (transfer_process_data s xs).1 ys).1,
       (transfer_process_data s xs).2 ++
         (transfer_process_data (transfer_process_data s xs).1 ys).2) := by
  induction xs with
  | nil =>
    intro s ys
    simp [process_data_nil]
  | cons b bs ih =>
    intro s ys
    rw [List.cons_append, process_data_cons, ih, process_data_cons]
    simp

/-- A strict prefix of a data frame decodes as Incomplete. -/
theorem decode_short_incomplete (p : TransferProtocol) (rest : List Nat)
    (hlen : (headerByte p :: rest).length < frameLen p (blockSize p)) :
    try_decode_frame p (headerByte p :: rest) = .Incomplete := by
  simp only [try_decode_frame, tagPayloadSize_headerByte]
  rw [if_pos hlen]

/-- The frame header byte is not CAN. -/
theorem headerByte_ne_can (p : TransferProtocol) : ¬ headerByte p = CAN := by
  cases p <;> decide

/-- The frame header byte is not EOT. -/
theorem headerByte_ne_eot (p : TransferProtocol) : ¬ headerByte p = EOT := by
  cases p <;> decide

/-- The frame header byte is SOH or STX. -/
theorem headerByte_soh_or_stx (p : TransferProtocol) :
    headerByte p = SOH ∨ headerByte p = STX := by
  cases p <;> simp [headerByte, blockSize]

/-- Mid-frame bytes accumulate silently: while every extension of the
inbound accumulator still decodes Incomplete, a receive session just
appends the bytes, changing nothing else and emitting nothing. -/
theorem feedAccum : ∀ (bytes : List Nat) (s : Session),
    s.direction = .receive → s.state.isTerminal = false → ¬ s.state = .idle →
    ¬ s.inbound = [] →
    (∀ j, j < bytes.length →
      try_decode_frame s.protocol (s.inbound ++ bytes.take (j + 1)) = .Incomplete) →
    transfer_process_data s bytes = ({ s with inbound := s.inbound ++ bytes }, []) := by
  intro bytes
  induction bytes with
  | nil =>
    intro s _ _ _ _ _
    rw [process_data_nil]
    simp
  | cons b bs ih =>
    intro s hdir hterm hidle hinb hincomp
    have h0 : try_decode_frame s.protocol (s.inbound ++ [b]) = .Incomplete := by
      have := hincomp 0 (by simp)
      simpa using this
    have hstep : processByte s b = ({ s with inbound := s.inbound ++ [b] }, []) := by
      unfold processByte
      rw [if_neg (by simp [hterm]), if_neg hidle, hdir]
      unfold processRecvByte
      rw [if_neg (by simpa [List.isEmpty_iff] using hinb)]
      simp only []
      rw [h0]
      simp [hdir]
    have hrec := ih ({ s with inbound := s.inbound ++ [b] }) hdir hterm hidle (by simp)
      (fun j hj => by
        have := hincomp (j + 1) (by simpa using Nat.succ_lt_succ hj)
        simpa [List.append_assoc] using this)
    rw [process_data_cons_step s _ _ b bs hstep, hrec]
    simp

/-- Process-data composed over two chunks with known results. -/
theorem process_data_append_step (s s1 s2 : Session) (e1 e2 : List TransferEvent)
    (xs ys : List Nat) (h1 : transfer_process_data s xs = (s1, e1))
    (h2 : transfer_process_data s1 ys = (s2, e2)) :
    transfer_process_data s (xs ++ ys) = (s2, e1 ++ e2) := by
  rw [process_data_append, h1, h2]

/-- C7: a receive session in transferring, at a frame boundary, that is
handed a complete valid frame carrying the previously accepted block number
(a peer retransmit) ACKs it again but appends nothing: the receive sink is
unchanged and the session stays in transferring. -/
theorem duplicate_block_reacked_not_reappended (s : Session) (n : Nat)
    (payload F : List Nat)
    (hdir : s.direction = .receive) (hstate : s.state = .transferring)
    (hinb : s.inbound = [])
    (hp : payload.length ≤ blockSize s.protocol)
    (hF : encode_data_block s.protocol n payload = some F)
    (hdup : n % 256 = (s.blockNumber + 255) % 256) :
    (transfer_process_data s F).1.receiveSink = s.receiveSink ∧
    (transfer_process_data s F).2 = [.SendData [ACK]] ∧
    (transfer_process_data s F).1.state = .transferring := by
  obtain ⟨bytes, henc, hdec⟩ := encode_decode_roundtrip s.protocol n payload hp
  have hFb : F = bytes := by
    rw [hF] at henc
    exact Option.some.inj henc
  have hdecF : try_decode_frame s.protocol F =
      .Valid ⟨n % 256, payload ++ List.replicate (blockSize s.protocol - payload.length) PAD⟩
        (frameLen s.protocol (blockSize s.protocol)) := by
    rw [hFb]
    exact hdec
  set pd0 := payload ++ List.replicate (blockSize s.protocol - payload.length) PAD with hpd0
  set tr := computeTrailer s.protocol
    (headerByte s.protocol :: (n % 256) :: (255 - n % 256) :: pd0) with htr
  set R := (n % 256) :: (255 - n % 256) :: (pd0 ++ tr) with hRdef
  have hFeq : F = headerByte s.protocol :: R := by
    unfold encode_data_block at hF
    rw [if_neg (by omega)] at hF
    have h := Option.some.inj hF
    rw [← h, hRdef]
    simp [hpd0, htr, List.append_assoc]
  have hRne : R ≠ [] := by simp [hRdef]
  have hlast : R.dropLast ++ [R.getLast hRne] = R := List.dropLast_append_getLast hRne
  have hpd0len : pd0.length = blockSize s.protocol := by
    rw [hpd0]
    simp only [List.length_append, List.length_replicate]
    omega
  have hRlen : R.length = 2 + (blockSize s.protocol + trailerLen s.protocol) := by
    rw [hRdef]
    simp only [List.length_cons, List.length_append, hpd0len, htr, computeTrailer_length]
    omega
  have hflen : frameLen s.protocol (blockSize s.protocol) = R.length + 1 := by
    rw [hRlen, frameLen]
    omega
  have hstep1 : processByte s (headerByte s.protocol) =
      ({ s with lastCan := false, inbound := [headerByte s.protocol] }, []) := by
    unfold processByte
    rw [if_neg (by rw [hstate]; decide), if_neg (by rw [hstate]; decide), hdir]
    unfold processRecvByte
    rw [if_pos (by rw [hinb]; rfl)]
    rw [if_neg (headerByte_ne_can s.protocol)]
    simp only []
    rw [if_neg (headerByte_ne_eot s.protocol), if_pos (headerByte_soh_or_stx s.protocol)]
    simp [hdir]
  have haccum : transfer_process_data
      ({ s with lastCan := false, inbound := [headerByte s.protocol] }) R.dropLast =
      ({ s with lastCan := false,
                inbound := [headerByte s.protocol] ++ R.dropLast }, []) := by
    have h := feedAccum R.dropLast
      ({ s with lastCan := false, inbound := [headerByte s.protocol] })
      hdir (by simp [hstate]; rfl) (by simp [hstate]) (by simp)
      (fun j hj => by
        have hlen2 : (headerByte s.protocol :: R.dropLast.take (j + 1)).length <
            frameLen s.protocol (blockSize s.protocol) := by
          simp only [List.length_cons, List.length_take]
          have h1 : R.dropLast.length = R.length - 1 := List.length_dropLast R
          rw [hflen]
          have h2 : 1 ≤ R.length := by rw [hRlen]; omega
          omega
        exact decode_short_incomplete s.protocol (R.dropLast.take (j + 1)) hlen2)
    simpa using h
  have hne1 : ¬ (n % 256 = s.blockNumber % 256) := by
    rw [hdup]
    omega
  have hstep2 : processByte
      ({ s with lastCan := false,
                inbound := [headerByte s.protocol] ++ R.dropLast }) (R.getLast hRne) =
      ({ s with lastCan := false, inbound := [] }, [.SendData [ACK]]) := by
    unfold processByte
    rw [if_neg (by simp [hstate]; rfl), if_neg (by simp [hstate]), hdir]
    unfold processRecvByte
    rw [if_neg (by simp)]
    simp only []
    rw [show ([headerByte s.protocol] ++ R.dropLast) ++ [R.getLast hRne] =
      headerByte s.protocol :: R from by rw [List.append_assoc, hlast]; rfl]
    rw [← hFeq, hdecF]
    simp only []
    rw [if_neg hne1, if_pos hdup]
  have hpd : transfer_process_data s F =
      ({ s with lastCan := false, inbound := [] }, [.SendData [ACK]]) := by
    rw [hFeq, ← hlast]
    rw [process_data_cons_step s _ _ _ _ hstep1]
    rw [process_data_append_step _ _ _ _ _ _ _ haccum
      (by rw [process_data_single, hstep2])]
    simp
  rw [hpd]
  exact ⟨rfl, rfl, hstate⟩

/-- A receive session that has already accepted block 1 (next expected 2),
used by the C7 witness. -/
def c7session : Session :=
  { protocol := .xmodemCrc
    direction := .receive
    state := .transferring
    blockNumber := 2
    retryCount := 0
    errorCount := 0
    remaining := []
    fileName := ""
    totalBytes := 0
    bytesTransferred := 128
    receiveSink := List.replicate 128 9
    inbound := []
    lastCan := false }

/-- A concrete retransmit of block 1, used by the C7 witness. -/
def c7frame : List Nat := (encode_data_block .xmodemCrc 1 [5, 6]).getD []

set_option maxRecDepth 10000 in
/-- Witness for C7: the concrete duplicate frame is re-ACKed, the sink is
untouched and the session stays in transferring. -/
theorem duplicate_block_reacked_witness :
    (transfer_process_data c7session c7frame).1.receiveSink = c7session.receiveSink ∧
    (transfer_process_data c7session c7frame).2 = [.SendData [ACK]] ∧
    (transfer_process_data c7session c7frame).1.state = .transferring :=
  duplicate_block_reacked_not_reappended c7session 1 [5, 6] c7frame rfl rfl rfl
    (by decide) rfl (by decide)

end SerialTerm
